import Mathlib

/-
Shallow embedding of the crawl engine of twitvault (src/crawler.rs).
Pure data is modelled with Lean structures; the stateful loops are
modelled as explicit state passing over an oracle list of upstream
responses; machine-integer casts are modelled on Int/Nat with explicit
reductions modulo 2^64 where the Rust code casts between i64 and u64.
External collaborators that are out of the crawl engine (the URL hash,
the media-root path resolution, the URL-extension parser, the network)
are passed in as function parameters.
-/

namespace TwitVault

/-! ### Association lists (model of HashMap) -/

/-- Model of HashMap insert: replace the value under an existing key,
otherwise append the binding. -/
def upsert {α β : Type} [DecidableEq α] : List (α × β) → α → β → List (α × β)
  | [], k, v => [(k, v)]
  | (k0, v0) :: rest, k, v =>
    if k0 = k then (k, v) :: rest else (k0, v0) :: upsert rest k v

/-- Model of HashMap lookup. -/
def alookup {α β : Type} [DecidableEq α] : List (α × β) → α → Option β
  | [], _ => none
  | (k0, v) :: rest, k => if k0 = k then some v else alookup rest k

/-- The keys of an association list. -/
def keys {α β : Type} (m : List (α × β)) : List α := m.map Prod.fst

/-! ### Rate limiter (handle_rate_limit, crawler.rs lines 656 to 675)

RateLimit fields are i32 in the upstream client library; the current
time is u64 seconds since the epoch.  The sleep duration is computed in
the source as the u64 cast of (((limit.reset as i64) - now) + 10). -/

structure RateLimitM where
  remaining : Int
  limit : Int
  reset : Int
deriving DecidableEq, Repr

/-- The cast from u64 to i64 (two-complement reinterpretation). -/
def i64_of_u64 (n : Nat) : Int :=
  if n % 2 ^ 64 < 2 ^ 63 then ((n % 2 ^ 64 : Nat) : Int)
  else ((n % 2 ^ 64 : Nat) : Int) - 2 ^ 64

/-- The cast from i64 to u64 (wrapping reinterpretation). -/
def u64_of_i64 (i : Int) : Nat := (i % 2 ^ 64).toNat

/-- Embedding of handle_rate_limit.  `now` is the result of reading the
system clock (none when SystemTime::now().duration_since(UNIX_EPOCH)
fails); the result is `some s` when the function sleeps s seconds and
`none` when it returns immediately. -/
def handle_rate_limit (rl : RateLimitM) (now : Option Nat) : Option Nat :=
  if rl.remaining ≤ 1 then
    some (match now with
      | some n => u64_of_i64 (rl.reset - i64_of_u64 n + 10)
      | none => 1000)
  else none

/-! ### Download instructions (enum DownloadInstruction, crawler.rs lines 26 to 32) -/

inductive DownloadInstruction where
  | image (url : String)
  | movie (content_type : String) (url : String)
  | profileMedia (url : String)
  | done
deriving DecidableEq, Repr

/-! ### Video variant selection (inspect_inner_tweet, crawler.rs lines 497 to 535)

A mime type is represented by its subtype string ("mp4" for mime::MP4);
a variant bitrate is Option Nat as in the upstream Option of u64. -/

structure VideoVariant where
  content_type : String
  bitrate : Option Nat
  url : String
deriving DecidableEq, Repr

structure VideoInfo where
  variants : List VideoVariant
deriving DecidableEq, Repr

structure MediaEntity where
  media_url_https : String
  video_info : Option VideoInfo
deriving DecidableEq, Repr

/-- The Rust Option ordering used by the guard bitrate > variant.bitrate
on Option of u64: none is below every some. -/
def option_gt : Option Nat → Option Nat → Bool
  | none, _ => false
  | some _, none => true
  | some a, some b => b < a

/-- Embedding of the selection loop of inspect_inner_tweet: start from
the first variant, and replace the current selection by a candidate
whose subtype is mp4 whenever the bitrate of the current selection is
strictly greater than the bitrate of the candidate. -/
def select_variant (variants : List VideoVariant) : Option VideoVariant :=
  variants.foldl
    (fun sel v =>
      match sel with
      | some s =>
        if v.content_type = "mp4" && option_gt s.bitrate v.bitrate then some v else sel
      | none => none)
    variants.head?

/-- Embedding of the media loop of inspect_inner_tweet: for media with
video variants emit Movie for the selected variant (skip the item when
no variant is selected), otherwise emit Image of the direct media URL. -/
def media_instructions (extended_entities : Option (List MediaEntity)) :
    List DownloadInstruction :=
  match extended_entities with
  | none => []
  | some media =>
    media.flatMap fun m =>
      match m.video_info with
      | some n =>
        match select_variant n.variants with
        | some variant => [.movie variant.content_type variant.url]
        | none => []
      | none => [.image m.media_url_https]

/-- The three-variant example of the spec: (mp4, 300), (mp4, 900), (mp4, 600). -/
def ex_variants : List VideoVariant :=
  [⟨"mp4", some 300, "u300"⟩, ⟨"mp4", some 900, "u900"⟩, ⟨"mp4", some 600, "u600"⟩]

/-! ### Download worker (handle_instruction, crawler.rs lines 594 to 639,
and the worker loop instruction_task, crawler.rs lines 53 to 66)

The worker state is the media map (URL to local path) plus the local
file system (path to bytes); `net` is the network oracle (none models a
failed fetch or body read); effects record the order of the side
effects File::create, network get, and write_all. -/

structure WorkerState where
  media : List (String × String)
  files : List (String × List Nat)
deriving DecidableEq, Repr

inductive Effect where
  | createFile (path : String)
  | netFetch (url : String)
  | writeFile (path : String) (bytes : List Nat)
deriving DecidableEq, Repr

/-- Extension resolution for Movie instructions: known video container
subtypes map to themselves, anything else falls back to the
URL-extension parser. -/
def movie_extension (extUrl : String → String) (sub url : String) : String :=
  if sub.toLower = "mp4" then "mp4"
  else if sub.toLower = "avi" then "avi"
  else if sub.toLower = "3gp" then "3gp"
  else if sub.toLower = "mov" then "mov"
  else extUrl url

/-- The (extension, url) pair computed by the first match of
handle_instruction; none for the Done sentinel (the catch-all arm
returns Ok immediately). -/
def instruction_target (extUrl : String → String) :
    DownloadInstruction → Option (String × String)
  | .image url => some (extUrl url, url)
  | .movie sub url => some (movie_extension extUrl sub url, url)
  | .profileMedia url => some (extUrl url, url)
  | .done => none

/-- The destination path: media root resolution applied to the decimal
URL hash followed by a dot and the extension. -/
def media_file_path (mediaPath : String → String) (urlHash : String → Nat)
    (url ext : String) : String :=
  mediaPath (toString (urlHash url) ++ "." ++ ext)

/-- Embedding of handle_instruction.  The Bool is true when the function
returns Ok and false when it returns an error (a failed fetch).  A URL
already present in the media map is skipped with no effect.  Otherwise
the file is created (truncating, hence the empty entry) before the
network fetch; on fetch failure the error propagates leaving the empty
file and no media-map entry; on success the bytes are written and the
URL is recorded. -/
def handle_instruction (mediaPath : String → String) (urlHash : String → Nat)
    (extUrl : String → String) (net : String → Option (List Nat))
    (st : WorkerState) (ins : DownloadInstruction) : WorkerState × List Effect × Bool :=
  match instruction_target extUrl ins with
  | none => (st, [], true)
  | some (ext, url) =>
    if (alookup st.media url).isSome then (st, [], true)
    else
      let path := media_file_path mediaPath urlHash url ext
      match net url with
      | none =>
        ({ st with files := upsert st.files path [] },
         [.createFile path, .netFetch url], false)
      | some bytes =>
        ({ media := upsert st.media url path,
           files := upsert (upsert st.files path []) path bytes },
         [.createFile path, .netFetch url, .writeFile path bytes], true)

/-- Embedding of the worker loop: stop at the Done sentinel, drain
without work when media download is disabled, otherwise handle each
instruction, a handling error being logged and never stopping the
loop. -/
def instruction_task (mediaPath : String → String) (urlHash : String → Nat)
    (extUrl : String → String) (net : String → Option (List Nat))
    (download_media : Bool) :
    WorkerState → List DownloadInstruction → WorkerState × List Effect
  | st, [] => (st, [])
  | st, .done :: _ => (st, [])
  | st, .image url :: rest =>
    if download_media then
      let r := handle_instruction mediaPath urlHash extUrl net st (.image url)
      let r2 := instruction_task mediaPath urlHash extUrl net download_media r.1 rest
      (r2.1, r.2.1 ++ r2.2)
    else instruction_task mediaPath urlHash extUrl net download_media st rest
  | st, .movie sub url :: rest =>
    if download_media then
      let r := handle_instruction mediaPath urlHash extUrl net st (.movie sub url)
      let r2 := instruction_task mediaPath urlHash extUrl net download_media r.1 rest
      (r2.1, r.2.1 ++ r2.2)
    else instruction_task mediaPath urlHash extUrl net download_media st rest
  | st, .profileMedia url :: rest =>
    if download_media then
      let r := handle_instruction mediaPath urlHash extUrl net st (.profileMedia url)
      let r2 := instruction_task mediaPath urlHash extUrl net download_media r.1 rest
      (r2.1, r.2.1 ++ r2.2)
    else instruction_task mediaPath urlHash extUrl net download_media st rest

/-! ### Profile cache (fetch_single_profile, crawler.rs lines 415 to 443;
fetch_multiple_profiles_data, crawler.rs lines 283 to 314) -/

structure ProfileM where
  id : Nat
  profile_image_url_https : String
  profile_banner_url : Option String
  profile_background_image_url_https : Option String
deriving DecidableEq, Repr

/-- Embedding of inspect_profile: ProfileMedia for the background image
when present, the banner when present, and always the avatar. -/
def inspect_profile (p : ProfileM) : List DownloadInstruction :=
  (match p.profile_background_image_url_https with
   | some u => [DownloadInstruction.profileMedia u]
   | none => []) ++
  (match p.profile_banner_url with
   | some u => [DownloadInstruction.profileMedia u]
   | none => []) ++
  [DownloadInstruction.profileMedia p.profile_image_url_https]

/-- Output of a profile fetch: the updated profiles map, the emitted
download instructions, the ids requested upstream, and the ids inserted
into the map. -/
structure ProfileFetchOut where
  profiles : List (Nat × ProfileM)
  instructions : List DownloadInstruction
  calls : List Nat
  inserted : List Nat

/-- Embedding of fetch_single_profile: return immediately when the id is
already cached, otherwise fetch the user, emit its media instructions,
and insert it under the requested id. -/
def fetch_single_profile (showApi : Nat → ProfileM)
    (profiles : List (Nat × ProfileM)) (id : Nat) : ProfileFetchOut :=
  if (alookup profiles id).isSome then ⟨profiles, [], [], []⟩
  else
    let user := showApi id
    ⟨upsert profiles id user, inspect_profile user, [id], [id]⟩

/-- Embedding of fetch_multiple_profiles_data: drop the ids already in
the profiles map, look the remainder up in one batched call, inspect
each returned profile, and insert every returned profile under its own
id. -/
def fetch_multiple_profiles_data (lookupApi : List Nat → List ProfileM)
    (profiles : List (Nat × ProfileM)) (ids : List Nat) : ProfileFetchOut :=
  let known := keys profiles
  let filtered := ids.filter (fun i => !(decide (i ∈ known)))
  let resp := lookupApi filtered
  ⟨resp.foldl (fun m p => upsert m p.id p) profiles,
   resp.flatMap inspect_profile,
   filtered,
   resp.map (fun p => p.id)⟩

/-- A run of the profile cache: an interleaving of single and batch
fetches. -/
inductive ProfileOp where
  | single (id : Nat)
  | batch (ids : List Nat)

/-- Execute a sequence of profile fetches, returning the final profiles
map and the trace of ids inserted into it. -/
def run_profile_ops (showApi : Nat → ProfileM) (lookupApi : List Nat → List ProfileM) :
    List ProfileOp → List (Nat × ProfileM) → (List (Nat × ProfileM)) × List Nat
  | [], profiles => (profiles, [])
  | .single i :: rest, profiles =>
    let r := fetch_single_profile showApi profiles i
    let r2 := run_profile_ops showApi lookupApi rest r.profiles
    (r2.1, r.inserted ++ r2.2)
  | .batch l :: rest, profiles =>
    let r := fetch_multiple_profiles_data lookupApi profiles l
    let r2 := run_profile_ops showApi lookupApi rest r.profiles
    (r2.1, r.inserted ++ r2.2)

/-! ### Pagination loops (fetch_user_tweets, crawler.rs lines 131 to 166;
fetch_profiles_ids, crawler.rs lines 242 to 281)

Each loop walks an oracle list of successive upstream responses.  The
cursor loop skips an error response and calls again with the state
unchanged; the timeline loop propagates the error (the question-mark
operator).  An empty page breaks the loop, after which the checkpoint
is cleared.  When the oracle list is exhausted mid-loop the result is
none (the loop would still be running). -/

structure IdsPage where
  ids : List Nat
  next_cursor : Int
deriving DecidableEq, Repr

structure PIdsState where
  cursor : Int
  ids : List Nat
  checkpoint : Option Nat
deriving DecidableEq, Repr

/-- u64::try_from on an i64: fails exactly on negative values. -/
def u64_try_from (i : Int) : Option Nat := if 0 ≤ i then some i.toNat else none

def fetch_profiles_ids_loop : List (Except Unit IdsPage) → PIdsState → Option PIdsState
  | [], _ => none
  | .error _ :: rest, st => fetch_profiles_ids_loop rest st
  | .ok page :: rest, st =>
    if page.ids.isEmpty then some { st with checkpoint := none }
    else
      fetch_profiles_ids_loop rest
        { cursor := page.next_cursor,
          ids := st.ids ++ page.ids,
          checkpoint := u64_try_from page.next_cursor }

structure TimelinePage where
  tweets : List Nat
  next_min_id : Option Nat
deriving DecidableEq, Repr

structure TimelineState where
  tweets : List Nat
  checkpoint : Option Nat
deriving DecidableEq, Repr

def fetch_user_tweets_loop :
    List (Except Unit TimelinePage) → TimelineState → Except Unit (Option TimelineState)
  | [], _ => .ok none
  | .error e :: _, _ => .error e
  | .ok page :: rest, st =>
    if page.tweets.isEmpty then .ok (some { st with checkpoint := none })
    else
      fetch_user_tweets_loop rest
        { tweets := st.tweets ++ page.tweets, checkpoint := page.next_min_id }

/-! ### Reply discovery (fetch_tweet_replies, crawler.rs lines 538 to 571;
the gate in inspect_tweet, crawler.rs lines 467 to 474) -/

structure ReplyTweet where
  id : Nat
  in_reply_to_status_id : Option Nat
deriving DecidableEq, Repr

/-- Embedding of fetch_tweet_replies given the search results: keep (and
inspect) exactly the results replying to the tweet, then store the kept
list in the responses map under the tweet id. -/
def fetch_tweet_replies (tweet_id : Nat) (results : List ReplyTweet)
    (responses : List (Nat × List ReplyTweet)) :
    List ReplyTweet × List (Nat × List ReplyTweet) :=
  let replies := results.foldl
    (fun acc r => if r.in_reply_to_status_id = some tweet_id then acc ++ [r] else acc) []
  (replies, upsert responses tweet_id replies)

/-- The gate of inspect_tweet deciding whether replies are searched:
responses enabled, and the tweet has no author or is authored by the
archive owner. -/
def inspect_tweet_searches_replies (tweet_responses : Bool) (owner_id : Nat)
    (author : Option Nat) : Bool :=
  tweet_responses && (author.isNone || author == some owner_id)

/-! ### Orchestrator (fetch, crawler.rs lines 34 to 129)

The orchestration is modelled by its event trace; `sv` gives the
outcome of the best-effort save after a phase (its value never changes
the control flow, a failed save only being logged). -/

inductive CrawlEvent where
  | loading (name : String)
  | phase (name : String)
  | save (ok : Bool)
  | sendDone
  | workerJoin
  | finished
deriving DecidableEq, Repr

structure CrawlOptions where
  tweets : Bool
  mentions : Bool
  followers : Bool
  follows : Bool
  lists : Bool
  tweet_profiles : Bool
  tweet_responses : Bool
  media : Bool
deriving DecidableEq, Repr

/-- One enabled phase: the Loading progress event, the phase body, the
best-effort save. -/
def phase_trace (name : String) (sv : String → Bool) : List CrawlEvent :=
  [.loading name, .phase name, .save (sv name)]

/-- Embedding of fetch: the five guarded phase blocks in source order,
then the Done sentinel to the download queue, the join of the worker
task, and the Finished message. -/
def fetch_events (o : CrawlOptions) (sv : String → Bool) : List CrawlEvent :=
  (if o.tweets then phase_trace "User Tweets" sv else []) ++
  (if o.mentions then phase_trace "User Mentions" sv else []) ++
  (if o.followers then phase_trace "Followers" sv else []) ++
  (if o.follows then phase_trace "Follows" sv else []) ++
  (if o.lists then phase_trace "Lists" sv else []) ++
  [.sendDone, .workerJoin, .finished]

/-- The fixed phase order of the spec with the enabling flag of each phase. -/
def crawl_phase_order : List (String × (CrawlOptions → Bool)) :=
  [("User Tweets", fun o => o.tweets),
   ("User Mentions", fun o => o.mentions),
   ("Followers", fun o => o.followers),
   ("Follows", fun o => o.follows),
   ("Lists", fun o => o.lists)]

/-- The names of the enabled phases in the fixed order. -/
def enabled_phases (o : CrawlOptions) : List String :=
  (crawl_phase_order.filter (fun p => p.2 o)).map Prod.fst

/-! ## Theorems -/

/-! ### Association list lemmas -/

theorem mem_keys_upsert {α β : Type} [DecidableEq α] (m : List (α × β)) (k a : α) (v : β) :
    a ∈ keys (upsert m k v) ↔ a = k ∨ a ∈ keys m := by
  induction m with
  | nil => simp [upsert, keys]
  | cons kv rest ih =>
    obtain ⟨k0, v0⟩ := kv
    by_cases hk : k0 = k
    · subst hk
      simp [upsert, keys]
    · simp only [upsert, if_neg hk, keys, List.map_cons, List.mem_cons] at ih ⊢
      tauto

theorem nodup_keys_upsert {α β : Type} [DecidableEq α] (m : List (α × β)) (k : α) (v : β)
    (h : (keys m).Nodup) : (keys (upsert m k v)).Nodup := by
  induction m with
  | nil => simp [upsert, keys]
  | cons kv rest ih =>
    obtain ⟨k0, v0⟩ := kv
    simp only [keys, List.map_cons, List.nodup_cons] at h
    by_cases hk : k0 = k
    · subst hk
      simpa [upsert, keys] using h
    · simp only [upsert, if_neg hk, keys, List.map_cons, List.nodup_cons]
      refine ⟨?_, ih h.2⟩
      intro hmem
      rcases (mem_keys_upsert rest k k0 v).1 hmem with h1 | h1
      · exact hk h1
      · exact h.1 h1

theorem alookup_upsert_self {α β : Type} [DecidableEq α] (m : List (α × β)) (k : α) (v : β) :
    alookup (upsert m k v) k = some v := by
  induction m with
  | nil => simp [upsert, alookup]
  | cons kv rest ih =>
    obtain ⟨k0, v0⟩ := kv
    by_cases hk : k0 = k
    · subst hk
      simp [upsert, alookup]
    · simp [upsert, alookup, hk, ih]

theorem alookup_isSome_iff_mem_keys {α β : Type} [DecidableEq α] (m : List (α × β)) (k : α) :
    (alookup m k).isSome ↔ k ∈ keys m := by
  induction m with
  | nil => simp [alookup, keys]
  | cons kv rest ih =>
    obtain ⟨k0, v0⟩ := kv
    by_cases hk : k0 = k
    · subst hk
      simp [alookup, keys]
    · simp only [alookup, if_neg hk, keys, List.map_cons, List.mem_cons, ih]
      constructor
      · tauto
      · rintro (h1 | h1)
        · exact absurd h1.symm hk
        · exact h1

/-! ### C1: video variant selection -/

/-- C1 (code bug evaluation): on the example variants of the spec
(mp4, 300), (mp4, 900), (mp4, 600) the selection loop keeps the
300 kbps variant, because the guard replaces the current selection when
the bitrate of the selection is strictly greater than that of the candidate (the
comparison is reversed with respect to picking the highest bitrate);
the emitted Movie instruction is for u300, not u900 as the spec
demands. -/
theorem video_variant_lowest_selected :
    select_variant ex_variants = some ⟨"mp4", some 300, "u300"⟩ ∧
    media_instructions (some [⟨"m", some ⟨ex_variants⟩⟩]) =
      [DownloadInstruction.movie "mp4" "u300"] ∧
    media_instructions (some [⟨"m", some ⟨ex_variants⟩⟩]) ≠
      [DownloadInstruction.movie "mp4" "u900"] := by
  refine ⟨by decide, by decide, by decide⟩

/-! ### C2 and C6: pagination loops -/

/-- C2 counterexample: a single page-level fetch error makes the tweets
timeline crawler return the error (the question-mark operator on
timeline.older propagates it), so the crawler aborts instead of
retrying. -/
theorem page_error_aborts_timeline :
    fetch_user_tweets_loop [Except.error ()] ⟨[], none⟩ = Except.error () := rfl

/-- C2 amended: only the cursor-based crawlers (follower and follow ids,
lists, list members) log a page-level error and retry the same cursor
indefinitely with state unchanged; the timeline crawlers (tweets and
mentions) propagate the first page-level error, aborting the crawler
and the run. -/
theorem page_error_retry_behavior :
    (∀ (n : Nat) (rest : List (Except Unit IdsPage)) (st : PIdsState),
      fetch_profiles_ids_loop (List.replicate n (Except.error ()) ++ rest) st =
        fetch_profiles_ids_loop rest st) ∧
    (∀ (rest : List (Except Unit TimelinePage)) (st : TimelineState),
      fetch_user_tweets_loop (Except.error () :: rest) st = Except.error ()) := by
  constructor
  · intro n rest st
    induction n with
    | zero => rfl
    | succ k ih => simpa [List.replicate_succ, fetch_profiles_ids_loop] using ih
  · intro rest st
    rfl

theorem tl_loop_complete (pages : List TimelinePage) (c : Option Nat) (st : TimelineState)
    (h : ∀ p ∈ pages, p.tweets ≠ []) :
    fetch_user_tweets_loop (pages.map Except.ok ++ [Except.ok ⟨[], c⟩]) st =
      Except.ok (some ⟨st.tweets ++ pages.flatMap (fun p => p.tweets), none⟩) := by
  induction pages generalizing st with
  | nil => simp [fetch_user_tweets_loop]
  | cons p rest ih =>
    have hp : p.tweets ≠ [] := h p (by simp)
    simp only [List.map_cons, List.cons_append, fetch_user_tweets_loop, List.append_eq]
    rw [if_neg (by simpa [List.isEmpty_iff] using hp)]
    rw [ih _ (fun q hq => h q (by simp [hq]))]
    simp [List.append_assoc]

theorem pids_loop_complete (pages : List IdsPage) (c : Int) (st : PIdsState)
    (h : ∀ p ∈ pages, p.ids ≠ []) :
    (fetch_profiles_ids_loop (pages.map Except.ok ++ [Except.ok ⟨[], c⟩]) st).map
        (fun f => (f.ids, f.checkpoint)) =
      some (st.ids ++ pages.flatMap (fun p => p.ids), none) := by
  induction pages generalizing st with
  | nil => simp [fetch_profiles_ids_loop]
  | cons p rest ih =>
    have hp : p.ids ≠ [] := h p (by simp)
    simp only [List.map_cons, List.cons_append, fetch_profiles_ids_loop, List.append_eq]
    rw [if_neg (by simpa [List.isEmpty_iff] using hp)]
    rw [ih _ (fun q hq => h q (by simp [hq]))]
    simp [List.append_assoc]

/-- C6: a crawler loop appends exactly the items of each non-empty page
to the aggregate in fetch order, terminates on the first empty page,
and on completion clears the persisted checkpoint (both for the
timeline loops and for the cursor loops). -/
theorem crawler_pagination_complete
    (tpages : List TimelinePage) (tc : Option Nat) (tst : TimelineState)
    (ipages : List IdsPage) (ic : Int) (ist : PIdsState)
    (ht : ∀ p ∈ tpages, p.tweets ≠ []) (hi : ∀ p ∈ ipages, p.ids ≠ []) :
    fetch_user_tweets_loop (tpages.map Except.ok ++ [Except.ok ⟨[], tc⟩]) tst =
      Except.ok (some ⟨tst.tweets ++ tpages.flatMap (fun p => p.tweets), none⟩) ∧
    (fetch_profiles_ids_loop (ipages.map Except.ok ++ [Except.ok ⟨[], ic⟩]) ist).map
        (fun f => (f.ids, f.checkpoint)) =
      some (ist.ids ++ ipages.flatMap (fun p => p.ids), none) :=
  ⟨tl_loop_complete tpages tc tst ht, pids_loop_complete ipages ic ist hi⟩

/-- C6 witness: three non-empty pages then an empty page yield exactly
the items of the three pages in order and a cleared checkpoint, for both loop
shapes. -/
theorem crawler_pagination_complete_witness :
    fetch_user_tweets_loop
        [Except.ok ⟨[1], some 10⟩, Except.ok ⟨[2], some 20⟩, Except.ok ⟨[3], some 30⟩,
         Except.ok ⟨[], none⟩] ⟨[], some 99⟩ =
      Except.ok (some ⟨[1, 2, 3], none⟩) ∧
    (fetch_profiles_ids_loop
        [Except.ok ⟨[4], 40⟩, Except.ok ⟨[5], 50⟩, Except.ok ⟨[6], 60⟩,
         Except.ok ⟨[], 0⟩] ⟨-1, [], some 7⟩).map (fun f => (f.ids, f.checkpoint)) =
      some ([4, 5, 6], none) := by
  have h := crawler_pagination_complete
    [⟨[1], some 10⟩, ⟨[2], some 20⟩, ⟨[3], some 30⟩] none ⟨[], some 99⟩
    [⟨[4], 40⟩, ⟨[5], 50⟩, ⟨[6], 60⟩] 0 ⟨-1, [], some 7⟩
    (by decide) (by decide)
  simpa using h

/-! ### C4 and C10: download worker -/

theorem nodup_media_handle (mediaPath : String → String) (urlHash : String → Nat)
    (extUrl : String → String) (net : String → Option (List Nat))
    (st : WorkerState) (ins : DownloadInstruction)
    (h : (keys st.media).Nodup) :
    (keys (handle_instruction mediaPath urlHash extUrl net st ins).1.media).Nodup := by
  cases hins : instruction_target extUrl ins with
  | none => simpa [handle_instruction, hins] using h
  | some target =>
    obtain ⟨ext, url⟩ := target
    by_cases hmem : (alookup st.media url).isSome
    · simpa [handle_instruction, hins, hmem] using h
    · cases hnet : net url with
      | none => simpa [handle_instruction, hins, hmem, hnet] using h
      | some bytes =>
        simp only [handle_instruction, hins, hmem, if_false, Bool.false_eq_true,
          if_neg, hnet]
        exact nodup_keys_upsert _ _ _ h

theorem nodup_media_task (mediaPath : String → String) (urlHash : String → Nat)
    (extUrl : String → String) (net : String → Option (List Nat)) (dm : Bool) :
    ∀ (inss : List DownloadInstruction) (st : WorkerState),
      (keys st.media).Nodup →
      (keys (instruction_task mediaPath urlHash extUrl net dm st inss).1.media).Nodup := by
  intro inss
  induction inss with
  | nil => intro st h; simpa [instruction_task] using h
  | cons ins rest ih =>
    intro st h
    cases ins with
    | done => simpa [instruction_task] using h
    | image url =>
      simp only [instruction_task]
      split
      · exact ih _ (nodup_media_handle mediaPath urlHash extUrl net st _ h)
      · exact ih _ h
    | movie sub url =>
      simp only [instruction_task]
      split
      · exact ih _ (nodup_media_handle mediaPath urlHash extUrl net st _ h)
      · exact ih _ h
    | profileMedia url =>
      simp only [instruction_task]
      split
      · exact ih _ (nodup_media_handle mediaPath urlHash extUrl net st _ h)
      · exact ih _ h

theorem instruction_task_cons (mediaPath : String → String) (urlHash : String → Nat)
    (extUrl : String → String) (net : String → Option (List Nat))
    (st : WorkerState) (ins : DownloadInstruction) (rest : List DownloadInstruction)
    (hne : ins ≠ DownloadInstruction.done) :
    instruction_task mediaPath urlHash extUrl net true st (ins :: rest) =
      ((instruction_task mediaPath urlHash extUrl net true
          (handle_instruction mediaPath urlHash extUrl net st ins).1 rest).1,
       (handle_instruction mediaPath urlHash extUrl net st ins).2.1 ++
         (instruction_task mediaPath urlHash extUrl net true
           (handle_instruction mediaPath urlHash extUrl net st ins).1 rest).2) := by
  cases ins with
  | done => exact absurd rfl hne
  | image url => simp [instruction_task]
  | movie sub url => simp [instruction_task]
  | profileMedia url => simp [instruction_task]

/-- C4: a URL already present in the media map makes the worker skip the
instruction entirely (no effect, state unchanged, Ok); the media map
keeps at most one entry per URL across any instruction sequence
(distinct keys are preserved); and for a URL not in the map the worker
proceeds to create the file and fetch the network, presence in the map
being the only dedup check. -/
theorem media_map_dedup (mediaPath : String → String) (urlHash : String → Nat)
    (extUrl : String → String) (net : String → Option (List Nat)) (dm : Bool)
    (st : WorkerState) (ins : DownloadInstruction) (ext url : String)
    (inss : List DownloadInstruction)
    (hins : instruction_target extUrl ins = some (ext, url)) :
    ((alookup st.media url).isSome →
      handle_instruction mediaPath urlHash extUrl net st ins = (st, [], true)) ∧
    ((keys st.media).Nodup →
      (keys (instruction_task mediaPath urlHash extUrl net dm st inss).1.media).Nodup) ∧
    (alookup st.media url = none →
      (handle_instruction mediaPath urlHash extUrl net st ins).2.1.take 2 =
        [Effect.createFile (media_file_path mediaPath urlHash url ext),
         Effect.netFetch url]) := by
  refine ⟨?_, fun h => nodup_media_task mediaPath urlHash extUrl net dm inss st h, ?_⟩
  · intro hmem
    simp [handle_instruction, hins, hmem]
  · intro hmiss
    simp only [handle_instruction, hins]
    rw [if_neg (by simp [hmiss])]
    cases hnet : net url <;> simp [hnet]

/-- C4 witness: with URL u already mapped the instruction for u is
skipped unchanged; a run over a duplicate-free map keeps its keys
duplicate-free; a fresh URL w is fetched. -/
theorem media_map_dedup_witness :
    handle_instruction (fun s => s) (fun _ => 7) (fun _ => "png") (fun _ => some [1, 2])
        ⟨[("u", "p")], []⟩ (DownloadInstruction.image "u") = (⟨[("u", "p")], []⟩, [], true) ∧
    (keys (instruction_task (fun s => s) (fun _ => 7) (fun _ => "png") (fun _ => some [1, 2])
        true ⟨[("u", "p")], []⟩
        [DownloadInstruction.image "u", DownloadInstruction.image "w"]).1.media).Nodup ∧
    (handle_instruction (fun s => s) (fun _ => 7) (fun _ => "png") (fun _ => some [1, 2])
        ⟨[("u", "p")], []⟩ (DownloadInstruction.image "w")).2.1.take 2 =
      [Effect.createFile "7.png", Effect.netFetch "w"] := by
  have h1 := media_map_dedup (fun s => s) (fun _ => 7) (fun _ => "png") (fun _ => some [1, 2])
    true ⟨[("u", "p")], []⟩ (DownloadInstruction.image "u") "png" "u"
    [DownloadInstruction.image "u", DownloadInstruction.image "w"] rfl
  have h2 := media_map_dedup (fun s => s) (fun _ => 7) (fun _ => "png") (fun _ => some [1, 2])
    true ⟨[("u", "p")], []⟩ (DownloadInstruction.image "w") "png" "w" [] rfl
  refine ⟨h1.1 (by decide), h1.2.1 (by decide), ?_⟩
  have h3 := h2.2.2 (by decide)
  simpa using h3

/-- C10: on a fresh URL the worker records the file creation before the
network fetch; if the fetch fails the instruction handler returns an
error with an empty file left at the computed path and no media-map
entry for the URL, and the worker loop continues with the remaining
instructions. -/
theorem download_error_not_atomic (mediaPath : String → String) (urlHash : String → Nat)
    (extUrl : String → String) (net : String → Option (List Nat))
    (st : WorkerState) (ins : DownloadInstruction) (ext url : String)
    (rest : List DownloadInstruction)
    (hins : instruction_target extUrl ins = some (ext, url))
    (hmiss : alookup st.media url = none)
    (hnet : net url = none) :
    handle_instruction mediaPath urlHash extUrl net st ins =
      ({ media := st.media,
         files := upsert st.files (media_file_path mediaPath urlHash url ext) [] },
       [Effect.createFile (media_file_path mediaPath urlHash url ext),
        Effect.netFetch url], false) ∧
    alookup (handle_instruction mediaPath urlHash extUrl net st ins).1.files
        (media_file_path mediaPath urlHash url ext) = some [] ∧
    instruction_task mediaPath urlHash extUrl net true st (ins :: rest) =
      ((instruction_task mediaPath urlHash extUrl net true
          { media := st.media,
            files := upsert st.files (media_file_path mediaPath urlHash url ext) [] }
          rest).1,
       [Effect.createFile (media_file_path mediaPath urlHash url ext),
        Effect.netFetch url] ++
         (instruction_task mediaPath urlHash extUrl net true
           { media := st.media,
             files := upsert st.files (media_file_path mediaPath urlHash url ext) [] }
           rest).2) := by
  have hne : ins ≠ DownloadInstruction.done := by
    intro h
    subst h
    simp [instruction_target] at hins
  have hmain : handle_instruction mediaPath urlHash extUrl net st ins =
      ({ media := st.media,
         files := upsert st.files (media_file_path mediaPath urlHash url ext) [] },
       [Effect.createFile (media_file_path mediaPath urlHash url ext),
        Effect.netFetch url], false) := by
    simp only [handle_instruction, hins]
    rw [if_neg (by simp [hmiss])]
    simp [hnet]
  refine ⟨hmain, ?_, ?_⟩
  · rw [hmain]
    exact alookup_upsert_self _ _ _
  · rw [instruction_task_cons mediaPath urlHash extUrl net st ins rest hne, hmain]

/-- C10 witness: a fresh URL w whose fetch fails leaves the empty file
7.png, no media entry for w, an error from the handler, and the worker
goes on with the rest of the queue. -/
theorem download_error_not_atomic_witness :
    handle_instruction (fun s => s) (fun _ => 7) (fun _ => "png") (fun _ => none)
        ⟨[], []⟩ (DownloadInstruction.image "w") =
      (⟨[], [("7.png", [])]⟩, [Effect.createFile "7.png", Effect.netFetch "w"], false) ∧
    alookup (handle_instruction (fun s => s) (fun _ => 7) (fun _ => "png") (fun _ => none)
        ⟨[], []⟩ (DownloadInstruction.image "w")).1.files "7.png" = some [] ∧
    instruction_task (fun s => s) (fun _ => 7) (fun _ => "png") (fun _ => none) true
        ⟨[], []⟩ [DownloadInstruction.image "w", DownloadInstruction.image "x"] =
      (⟨[], [("7.png", [])]⟩,
       [Effect.createFile "7.png", Effect.netFetch "w",
        Effect.createFile "7.png", Effect.netFetch "x"]) := by
  have h := download_error_not_atomic (fun s => s) (fun _ => 7) (fun _ => "png")
    (fun _ => none) ⟨[], []⟩ (DownloadInstruction.image "w") "png" "w"
    [DownloadInstruction.image "x"] rfl rfl rfl
  refine ⟨?_, ?_, ?_⟩
  · simpa using h.1
  · simpa using h.2.1
  · have h3 := h.2.2
    simp only [h3]
    decide

/-! ### C5: profile cache -/

theorem mem_keys_foldl_upsert (ps : List ProfileM) :
    ∀ (m : List (Nat × ProfileM)) (a : Nat), a ∈ keys m →
      a ∈ keys (ps.foldl (fun m p => upsert m p.id p) m) := by
  induction ps with
  | nil => intro m a h; exact h
  | cons p rest ih =>
    intro m a h
    simp only [List.foldl_cons]
    exact ih _ _ ((mem_keys_upsert m p.id a p).2 (Or.inr h))

theorem mem_keys_foldl_of_mem (ps : List ProfileM) :
    ∀ (p : ProfileM), p ∈ ps → ∀ (m : List (Nat × ProfileM)),
      p.id ∈ keys (ps.foldl (fun m q => upsert m q.id q) m) := by
  induction ps with
  | nil => intro p hp; cases hp
  | cons q rest ih =>
    intro p hp m
    simp only [List.foldl_cons]
    rcases List.mem_cons.1 hp with h1 | h1
    · subst h1
      exact mem_keys_foldl_upsert rest _ _ ((mem_keys_upsert m p.id p.id p).2 (Or.inl rfl))
    · exact ih p h1 _

theorem run_profile_ops_keys_mono (showApi : Nat → ProfileM)
    (lookupApi : List Nat → List ProfileM) (ops : List ProfileOp) :
    ∀ (m : List (Nat × ProfileM)) (a : Nat), a ∈ keys m →
      a ∈ keys (run_profile_ops showApi lookupApi ops m).1 := by
  induction ops with
  | nil => intro m a h; simpa [run_profile_ops] using h
  | cons op rest ih =>
    intro m a h
    cases op with
    | single i =>
      simp only [run_profile_ops]
      apply ih
      by_cases hmem : (alookup m i).isSome
      · simpa [fetch_single_profile, hmem] using h
      · simp only [fetch_single_profile, hmem, if_false, Bool.false_eq_true, if_neg]
        exact (mem_keys_upsert m i a _).2 (Or.inr h)
    | batch l =>
      simp only [run_profile_ops]
      apply ih
      simp only [fetch_multiple_profiles_data]
      exact mem_keys_foldl_upsert _ _ _ h

theorem run_count_zero (showApi : Nat → ProfileM)
    (lookupApi : List Nat → List ProfileM)
    (hapi1 : ∀ L, ∀ p ∈ lookupApi L, p.id ∈ L) (ops : List ProfileOp) :
    ∀ (m : List (Nat × ProfileM)) (a : Nat), a ∈ keys m →
      ((run_profile_ops showApi lookupApi ops m).2).count a = 0 := by
  induction ops with
  | nil => intro m a h; simp [run_profile_ops]
  | cons op rest ih =>
    intro m a h
    cases op with
    | single i =>
      simp only [run_profile_ops, List.count_append]
      by_cases hmem : (alookup m i).isSome
      · simp only [fetch_single_profile, hmem, if_true, Bool.true_eq, if_pos]
        simp [ih m a h]
      · have hai : a ≠ i := by
          intro h1
          subst h1
          exact hmem ((alookup_isSome_iff_mem_keys m a).2 h)
        simp only [fetch_single_profile, hmem, if_false, Bool.false_eq_true, if_neg]
        have h2 := ih (upsert m i (showApi i)) a ((mem_keys_upsert m i a _).2 (Or.inr h))
        simp [h2, List.count_cons, hai]
    | batch l =>
      simp only [run_profile_ops, List.count_append, fetch_multiple_profiles_data]
      have hnot : a ∉ (lookupApi (l.filter fun i => !(decide (i ∈ keys m)))).map
          (fun p => p.id) := by
        intro hmem
        rcases List.mem_map.1 hmem with ⟨p, hp, hpid⟩
        have := hapi1 _ p hp
        rw [hpid] at this
        rcases List.mem_filter.1 this with ⟨_, hcond⟩
        simp at hcond
        exact hcond h
      have h2 := ih ((lookupApi (l.filter fun i => !(decide (i ∈ keys m)))).foldl
        (fun m p => upsert m p.id p) m) a (mem_keys_foldl_upsert _ _ _ h)
      simp [List.count_eq_zero.2 hnot, h2]

theorem run_count_le_one (showApi : Nat → ProfileM)
    (lookupApi : List Nat → List ProfileM)
    (hapi1 : ∀ L, ∀ p ∈ lookupApi L, p.id ∈ L)
    (hapi2 : ∀ L, ((lookupApi L).map (fun p => p.id)).Nodup) (ops : List ProfileOp) :
    ∀ (m : List (Nat × ProfileM)) (a : Nat),
      ((run_profile_ops showApi lookupApi ops m).2).count a ≤ 1 := by
  induction ops with
  | nil => intro m a; simp [run_profile_ops]
  | cons op rest ih =>
    intro m a
    cases op with
    | single i =>
      simp only [run_profile_ops, List.count_append]
      by_cases hmem : (alookup m i).isSome
      · simp only [fetch_single_profile, hmem, if_true, Bool.true_eq, if_pos]
        simpa using ih m a
      · simp only [fetch_single_profile, hmem, if_false, Bool.false_eq_true, if_neg]
        by_cases hai : a = i
        · subst hai
          have hmem2 : a ∈ keys (upsert m a (showApi a)) :=
            (mem_keys_upsert m a a _).2 (Or.inl rfl)
          have h0 := run_count_zero showApi lookupApi hapi1 rest _ a hmem2
          simp [h0, List.count_cons]
        · have h1 := ih (upsert m i (showApi i)) a
          simp [List.count_cons, hai]
          simpa using h1
    | batch l =>
      simp only [run_profile_ops, List.count_append, fetch_multiple_profiles_data]
      by_cases hmem : a ∈ (lookupApi (l.filter fun i => !(decide (i ∈ keys m)))).map
          (fun p => p.id)
      · have hcount1 : ((lookupApi (l.filter fun i => !(decide (i ∈ keys m)))).map
            (fun p => p.id)).count a ≤ 1 :=
          (List.nodup_iff_count_le_one.1 (hapi2 _)) a
        rcases List.mem_map.1 hmem with ⟨p, hp, hpid⟩
        have hmem2 : a ∈ keys ((lookupApi (l.filter fun i => !(decide (i ∈ keys m)))).foldl
            (fun m q => upsert m q.id q) m) := by
          rw [← hpid]
          exact mem_keys_foldl_of_mem _ p hp m
        have h0 := run_count_zero showApi lookupApi hapi1 rest _ a hmem2
        omega
      · have h1 := ih ((lookupApi (l.filter fun i => !(decide (i ∈ keys m)))).foldl
          (fun m p => upsert m p.id p) m) a
        simp [List.count_eq_zero.2 hmem]
        simpa using h1

/-- C5: a single profile fetch of an id that is already cached is a
total no-op (no upstream call, no media instructions, map unchanged); a
batch fetch excludes cached ids from the batched lookup; consequently
over any sequence of single and batch fetches each id is inserted into
the profiles map at most once (assuming the upstream batch lookup
returns at most one profile per requested id). -/
theorem profile_fetch_at_most_once (showApi : Nat → ProfileM)
    (lookupApi : List Nat → List ProfileM) (ops : List ProfileOp)
    (profiles : List (Nat × ProfileM)) (id : Nat) (ids : List Nat)
    (hapi1 : ∀ L, ∀ p ∈ lookupApi L, p.id ∈ L)
    (hapi2 : ∀ L, ((lookupApi L).map (fun p => p.id)).Nodup) :
    ((alookup profiles id).isSome →
      fetch_single_profile showApi profiles id = ⟨profiles, [], [], []⟩) ∧
    (id ∈ keys profiles →
      id ∉ (fetch_multiple_profiles_data lookupApi profiles ids).calls) ∧
    ((run_profile_ops showApi lookupApi ops profiles).2).count id ≤ 1 := by
  refine ⟨?_, ?_, run_count_le_one showApi lookupApi hapi1 hapi2 ops profiles id⟩
  · intro h
    simp [fetch_single_profile, h]
  · intro h hmem
    simp only [fetch_multiple_profiles_data] at hmem
    rcases List.mem_filter.1 hmem with ⟨_, hcond⟩
    simp at hcond
    exact hcond h

/-- C5 witness: with id 5 cached, a single fetch of 5 is a no-op, a
batch fetch of [5, 6] calls upstream only for 6, and the run
single 5, batch [5, 6], single 6 inserts 5 zero times (and at most
once). -/
theorem profile_fetch_at_most_once_witness :
    fetch_single_profile (fun i => ⟨i, "a", none, none⟩)
        [(5, ⟨5, "a", none, none⟩)] 5 = ⟨[(5, ⟨5, "a", none, none⟩)], [], [], []⟩ ∧
    (5 : Nat) ∉ (fetch_multiple_profiles_data
        (fun L => L.dedup.map fun i => ⟨i, "a", none, none⟩)
        [(5, ⟨5, "a", none, none⟩)] [5, 6]).calls ∧
    ((run_profile_ops (fun i => ⟨i, "a", none, none⟩)
        (fun L => L.dedup.map fun i => ⟨i, "a", none, none⟩)
        [ProfileOp.single 5, ProfileOp.batch [5, 6], ProfileOp.single 6]
        [(5, ⟨5, "a", none, none⟩)]).2).count 5 ≤ 1 := by
  have h := profile_fetch_at_most_once (fun i => (⟨i, "a", none, none⟩ : ProfileM))
    (fun L => L.dedup.map fun i => ⟨i, "a", none, none⟩)
    [ProfileOp.single 5, ProfileOp.batch [5, 6], ProfileOp.single 6]
    [(5, ⟨5, "a", none, none⟩)] 5 [5, 6]
    (by
      intro L p hp
      rcases List.mem_map.1 hp with ⟨i, hi, rfl⟩
      exact List.mem_dedup.1 hi)
    (by
      intro L
      have h2 : ∀ (M : List Nat),
          ((M.map fun i => (⟨i, "a", none, none⟩ : ProfileM)).map fun p => p.id) = M := by
        intro M
        induction M with
        | nil => rfl
        | cons a as ih => simp only [List.map_cons, ih]
      rw [h2]
      exact List.nodup_dedup L)
  exact ⟨h.1 (by decide), h.2.1 (by decide), h.2.2⟩

/-! ### C7: reply discovery -/

theorem foldl_push_eq_filter {α : Type} (p : α → Prop) [DecidablePred p] (l : List α) :
    ∀ acc : List α,
      l.foldl (fun a r => if p r then a ++ [r] else a) acc =
        acc ++ l.filter (fun r => decide (p r)) := by
  induction l with
  | nil => intro acc; simp
  | cons x xs ih =>
    intro acc
    by_cases hx : p x
    · simp [hx, List.filter_cons, ih, List.append_assoc]
    · simp [hx, List.filter_cons, ih]

/-- C7: when reply discovery is enabled and the author of the tweet is the
owner (or absent) the reply search is performed; the kept replies are
exactly the search results whose in_reply_to_status_id equals the
id of the tweet; the kept set is stored in the responses map under the
id of the tweet, replacing any prior set, and a lookup of that id afterwards
returns exactly the kept set. -/
theorem reply_discovery_spec (owner tid : Nat) (author : Option Nat)
    (results : List ReplyTweet) (responses : List (Nat × List ReplyTweet))
    (hauthor : author = none ∨ author = some owner) :
    inspect_tweet_searches_replies true owner author = true ∧
    (fetch_tweet_replies tid results responses).1 =
      results.filter (fun r => decide (r.in_reply_to_status_id = some tid)) ∧
    (fetch_tweet_replies tid results responses).2 =
      upsert responses tid (fetch_tweet_replies tid results responses).1 ∧
    alookup (fetch_tweet_replies tid results responses).2 tid =
      some (fetch_tweet_replies tid results responses).1 := by
  refine ⟨?_, ?_, rfl, ?_⟩
  · rcases hauthor with h | h <;> subst h <;> simp [inspect_tweet_searches_replies]
  · simp only [fetch_tweet_replies]
    simpa using foldl_push_eq_filter
      (fun r => r.in_reply_to_status_id = some tid) results []
  · exact alookup_upsert_self responses tid _

/-- C7 witness: tweet 42 authored by owner 1; among three search
results two reply to 42 and one to 7; exactly the two are kept and
stored under key 42, replacing the prior set. -/
theorem reply_discovery_spec_witness :
    inspect_tweet_searches_replies true 1 (some 1) = true ∧
    (fetch_tweet_replies 42 [⟨100, some 42⟩, ⟨101, some 42⟩, ⟨102, some 7⟩]
        [(42, [⟨9, some 42⟩])]).1 = [⟨100, some 42⟩, ⟨101, some 42⟩] ∧
    alookup (fetch_tweet_replies 42 [⟨100, some 42⟩, ⟨101, some 42⟩, ⟨102, some 7⟩]
        [(42, [⟨9, some 42⟩])]).2 42 = some [⟨100, some 42⟩, ⟨101, some 42⟩] := by
  have h := reply_discovery_spec 1 42 (some 1)
    [⟨100, some 42⟩, ⟨101, some 42⟩, ⟨102, some 7⟩] [(42, [⟨9, some 42⟩])] (Or.inr rfl)
  have e1 : (fetch_tweet_replies 42 [⟨100, some 42⟩, ⟨101, some 42⟩, ⟨102, some 7⟩]
      [(42, [⟨9, some 42⟩])]).1 = [⟨100, some 42⟩, ⟨101, some 42⟩] := by
    rw [h.2.1]
    decide
  refine ⟨h.1, e1, ?_⟩
  rw [h.2.2.2, e1]

/-! ### C8: orchestrator phase order -/

/-- C8: the event trace of the orchestrator runs exactly the enabled phases
in the fixed order tweets, mentions, followers, follows, lists, each as
Loading(name), the phase body, then the best-effort save (whose outcome
sv never changes the control flow), and after all phases sends the Done
sentinel to the download queue, joins the worker, and emits Finished. -/
theorem orchestrator_phase_order (o : CrawlOptions) (sv : String → Bool) :
    fetch_events o sv =
      (enabled_phases o).flatMap
        (fun n => [CrawlEvent.loading n, CrawlEvent.phase n, CrawlEvent.save (sv n)]) ++
      [CrawlEvent.sendDone, CrawlEvent.workerJoin, CrawlEvent.finished] := by
  obtain ⟨t, m, f1, f2, l, x, y, z⟩ := o
  cases t <;> cases m <;> cases f1 <;> cases f2 <;> cases l <;> rfl

/-! ### Integer cast lemmas -/

theorem i64_of_u64_small (n : Nat) (h : n < 2 ^ 63) : i64_of_u64 n = (n : Int) := by
  unfold i64_of_u64
  have hm : n % 2 ^ 64 = n := Nat.mod_eq_of_lt (by omega)
  rw [hm]
  simp only [if_pos h]

theorem u64_of_i64_nonneg (i : Int) (h0 : 0 ≤ i) (h1 : i < 2 ^ 64) :
    u64_of_i64 i = i.toNat := by
  unfold u64_of_i64
  omega

theorem u64_of_i64_neg (i : Int) (h0 : -(2 ^ 64) ≤ i) (h1 : i < 0) :
    u64_of_i64 i = (i + 2 ^ 64).toNat := by
  unfold u64_of_i64
  omega

/-- C3: with remaining ≤ 1 the rate limiter sleeps (reset − now) + 10
seconds (whenever that quantity is nonnegative, i.e. now ≤ reset + 10),
falls back to a fixed 1000 second sleep when the clock cannot be read,
and with remaining > 1 it returns immediately with no sleep. -/
theorem rate_limit_sleep_spec (rl : RateLimitM) (n : Nat)
    (hreset : rl.reset < 2 ^ 31) (hn : n < 2 ^ 63)
    (hle : (n : Int) ≤ rl.reset + 10) :
    (rl.remaining ≤ 1 →
      handle_rate_limit rl (some n) = some ((rl.reset + 10 - (n : Int)).toNat) ∧
      handle_rate_limit rl none = some 1000) ∧
    (1 < rl.remaining →
      handle_rate_limit rl (some n) = none ∧ handle_rate_limit rl none = none) := by
  constructor
  · intro hrem
    constructor
    · simp only [handle_rate_limit, if_pos hrem]
      have hcast := i64_of_u64_small n hn
      rw [hcast]
      have : u64_of_i64 (rl.reset - (n : Int) + 10) = (rl.reset + 10 - (n : Int)).toNat := by
        rw [u64_of_i64_nonneg (rl.reset - (n : Int) + 10) (by omega) (by omega)]
        congr 1
        omega
      rw [this]
    · simp only [handle_rate_limit, if_pos hrem]
  · intro hrem
    simp [handle_rate_limit, if_neg (by omega : ¬ rl.remaining ≤ 1)]

/-- C3 witness: remaining = 1, reset = now + 5 sleeps exactly 15 seconds
(at least the 15 promised by the spec example); the clock-failure path
sleeps 1000 seconds; remaining = 50 sleeps not at all. -/
theorem rate_limit_sleep_spec_witness :
    handle_rate_limit ⟨1, 100, 15⟩ (some 10) = some 15 ∧ (15 : Nat) ≥ 15 ∧
    handle_rate_limit ⟨1, 100, 15⟩ none = some 1000 ∧
    handle_rate_limit ⟨50, 100, 15⟩ (some 10) = none := by
  have h1 := rate_limit_sleep_spec ⟨1, 100, 15⟩ 10 (by norm_num) (by norm_num) (by norm_num)
  have h2 := rate_limit_sleep_spec ⟨50, 100, 15⟩ 10 (by norm_num) (by norm_num) (by norm_num)
  refine ⟨?_, by norm_num, ?_, ?_⟩
  · rw [(h1.1 (by norm_num)).1]; rfl
  · exact (h1.1 (by norm_num)).2
  · exact (h2.2 (by norm_num)).1

/-- C9: with remaining ≤ 1 and the current epoch exceeding reset + 10,
the sleep computation casts a negative i64 to u64, wrapping to
2^64 + reset + 10 − now, a value above 2^63: the limiter sleeps an
effectively unbounded duration instead of returning promptly. -/
theorem rate_limit_wrap (rl : RateLimitM) (n : Nat)
    (hrem : rl.remaining ≤ 1) (hreset : 0 ≤ rl.reset)
    (hgt : rl.reset + 10 < (n : Int)) (hn : n < 2 ^ 63) :
    handle_rate_limit rl (some n) = some ((2 ^ 64 + rl.reset + 10 - (n : Int)).toNat) ∧
    2 ^ 63 < (2 ^ 64 + rl.reset + 10 - (n : Int)).toNat := by
  constructor
  · simp only [handle_rate_limit, if_pos hrem]
    have hcast := i64_of_u64_small n hn
    rw [hcast]
    have : u64_of_i64 (rl.reset - (n : Int) + 10) =
        (2 ^ 64 + rl.reset + 10 - (n : Int)).toNat := by
      rw [u64_of_i64_neg (rl.reset - (n : Int) + 10) (by omega) (by omega)]
      congr 1
      omega
    rw [this]
  · omega

/-- C9 witness: remaining = 1, reset = 1000, now = 2000 sleeps
2^64 − 990 seconds, far above 2^63. -/
theorem rate_limit_wrap_witness :
    handle_rate_limit ⟨1, 100, 1000⟩ (some 2000) = some 18446744073709550626 ∧
    (2 : Nat) ^ 63 < 18446744073709550626 := by
  have h := rate_limit_wrap ⟨1, 100, 1000⟩ 2000 (by norm_num) (by norm_num)
    (by norm_num) (by norm_num)
  constructor
  · rw [h.1]; rfl
  · norm_num

end TwitVault
